import Mathlib

/-!
Shallow embedding of the conversation derivation and messaging logic of
`src/pages/MessagesPage.tsx` (MessagesPage component).

Conventions of the embedding:
* JS timestamps (milliseconds since epoch, `Date.getTime()`) are `Int`.
* JS `Date.now()` / `new Date().getTime()` is an explicit `now : Int` parameter;
  a single derivation pass uses one value of `now`, matching a single synchronous
  execution of `loadConversations`.
* Optional / possibly-absent JS fields are `Option`; the JS falsy test on a
  string-valued field treats both absence and the empty string as falsy, which
  the helpers below reproduce.
* A JS function that can throw is embedded as `Except`; a function that never
  throws and returns `undefined` on every path is embedded with `Except.ok`
  on every path, so the error channel shows exactly what is surfaced.
-/

/-- Presence status of a conversation: `'online' | 'offline' | 'away'`. -/
inductive Status where
  | online
  | offline
  | away
deriving DecidableEq

/-- Message content kind: `'text' | 'image' | 'file'`. -/
inductive MsgType where
  | text
  | image
  | file
deriving DecidableEq

/-- The `Message` interface of MessagesPage.tsx (lines 11-19). -/
structure Message where
  id : String
  senderId : String
  senderName : String
  content : String
  timestamp : Int
  type : MsgType
  read : Bool
deriving DecidableEq

/-- The `Conversation` interface of MessagesPage.tsx (lines 21-31). -/
structure Conversation where
  id : String
  patientId : String
  patientName : String
  patientEmail : String
  lastMessage : String
  lastMessageTime : Int
  unreadCount : Nat
  status : Status
  messages : List Message
deriving DecidableEq

/-- A booking record as read from `mindcare_bookings` and consumed by
`loadConversations`: the fields the code accesses are `patientId`,
`patientName`, `patientEmail` (possibly absent), `therapistId`,
`therapistName`, `status` (a free-form string compared against
`'completed'`, `'pending_confirmation'`, `'confirmed'`), `createdAt`
(possibly absent; when present a valid date, modelled by its timestamp)
and `date` (modelled by its timestamp). -/
structure Booking where
  patientId : String
  patientName : String
  patientEmail : Option String
  therapistId : String
  therapistName : String
  status : String
  createdAt : Option Int
  date : Int
deriving DecidableEq

/-- A registered-user record as read from `mindcare_registered_users`;
the code accesses `id` and `email` (possibly absent). -/
structure UserRec where
  id : String
  email : Option String
deriving DecidableEq

/-- The current provider identity `user` from `useAuth()`; the code accesses
`user?.name` and `user?.id`.  The claims all presuppose a present provider,
so the identity is modelled as present with its two fields. -/
structure Identity where
  id : String
  name : String
deriving DecidableEq

/-- JS string falsy-or helper: `a || b` where `a` is a possibly-absent string;
absent and empty both fall through to `b`. -/
def jsOrStr (a : Option String) (b : String) : String :=
  match a with
  | some s => if s.isEmpty then b else s
  | none => b

/-- Reference time of a booking: `new Date(b.createdAt || b.date).getTime()`
(lines 63, 80) — creation time when present, else appointment date. -/
def refTime (b : Booking) : Int :=
  match b.createdAt with
  | some t => t
  | none => b.date

/-- Line 48-50: a booking belongs to the current therapist when
`booking.therapistName === user?.name || booking.therapistId === user?.id`. -/
def matchesTherapist (identity : Identity) (b : Booking) : Bool :=
  b.therapistName == identity.name || b.therapistId == identity.id

/-- Lines 67-77: the canned last message selected from the latest booking's
status (`let lastMessage = 'Looking forward to our session.'` then the
if/else-if chain). -/
def lastMessageFor (status : String) : String :=
  if status == "completed" then
    "Thank you for the session today. I feel much better."
  else if status == "pending_confirmation" then
    "I just booked an appointment. Can you confirm the time?"
  else if status == "confirmed" then
    "See you at our scheduled appointment."
  else
    "Looking forward to our session."

/-- Lines 67-77: the unread count selected from the latest booking's status
(`let unreadCount = 0`, set to `1` only in the `pending_confirmation` branch). -/
def unreadFor (status : String) : Nat :=
  if status == "pending_confirmation" then 1 else 0

/-- One hour in milliseconds, `1000 * 60 * 60` as written on lines 81, 94, 103, 112. -/
def hourMs : Int := 1000 * 60 * 60

/-- Lines 80-85: presence from elapsed time since the latest booking's
reference time.  The source computes `hoursAgo = (now - t) / (1000*60*60)`
in exact JS float division and tests `hoursAgo < 2` and `hoursAgo < 24`;
for integer millisecond values these tests are exactly
`now - t < 2 * hourMs` and `now - t < 24 * hourMs`, which is how the
comparison is written here.  The initial value is `'offline'`, overwritten
by the two guarded assignments. -/
def presence (t now : Int) : Status :=
  let timeSinceBooking := now - t
  if timeSinceBooking < 2 * hourMs then Status.online
  else if timeSinceBooking < 24 * hourMs then Status.away
  else Status.offline

/-- The comparator step of lines 62-64: the latest booking is the head of the
stable descending sort of the patient's bookings by `refTime`; equivalently a
left fold keeping the current best and replacing it only on a strictly later
reference time (a stable descending sort puts the earliest of the equal-key
maxima first, exactly the element this fold keeps). -/
def pickLater (best x : Booking) : Booking :=
  if refTime x > refTime best then x else best

/-- Lines 61-64: `patientBookings.sort((a, b) => refTime b - refTime a)[0]` —
`none` on an empty list, else the first maximum by `refTime`. -/
def latestBooking : List Booking → Option Booking
  | [] => none
  | b :: bs => some (List.foldl pickLater b bs)

/-- Lines 56-57 and 122: the patient email resolution
`booking.patientEmail || patientUser?.email || 'patient@example.com'`, where
`patientUser = registeredUsers.find(u => u.id === booking.patientId)`. -/
def resolveEmail (b : Booking) (users : List UserRec) : String :=
  jsOrStr b.patientEmail
    (jsOrStr ((users.find? (fun u => u.id == b.patientId)).bind (fun u => u.email))
      "patient@example.com")

/-- Lines 88-116: the three synthetic seed messages created for a
conversation, timestamped 4, 3 and 2 hours before `now`; the second sender
falls back to `'therapist'` / `'Therapist'` when the identity fields are
falsy, and the third message's `read` flag is `unreadCount === 0`. -/
def seedMessages (identity : Identity) (b : Booking) (lastMessage : String)
    (unreadCount : Nat) (now : Int) : List Message :=
  [ { id := "m_" ++ b.patientId ++ "_1",
      senderId := b.patientId,
      senderName := b.patientName,
      content := "Hi " ++ identity.name ++ ", I wanted to follow up on our session.",
      timestamp := now - 4 * hourMs,
      type := MsgType.text,
      read := true },
    { id := "m_" ++ b.patientId ++ "_2",
      senderId := if identity.id.isEmpty then "therapist" else identity.id,
      senderName := if identity.name.isEmpty then "Therapist" else identity.name,
      content := "Hello " ++ b.patientName ++ "! I\x27m glad you reached out. How are you feeling today?",
      timestamp := now - 3 * hourMs,
      type := MsgType.text,
      read := true },
    { id := "m_" ++ b.patientId ++ "_3",
      senderId := b.patientId,
      senderName := b.patientName,
      content := lastMessage,
      timestamp := now - 2 * hourMs,
      type := MsgType.text,
      read := unreadCount == 0 } ]

/-- Lines 59-131: the conversation built when a patient id is first seen.
`booking` is the first qualifying booking encountered for this patient;
`therapistBookings` is the full filtered list, from which the patient's
group and its latest booking are recomputed (lines 61-64).  The `none`
branch of the `match` is unreachable (the group always contains `booking`)
and defaults to `booking` itself. -/
def mkConversation (therapistBookings : List Booking) (users : List UserRec)
    (identity : Identity) (now : Int) (booking : Booking) : Conversation :=
  let patientBookings := therapistBookings.filter (fun b2 => b2.patientId == booking.patientId)
  let latest := match latestBooking patientBookings with
    | some lb => lb
    | none => booking
  let lastMessage := lastMessageFor latest.status
  let unreadCount := unreadFor latest.status
  let status := presence (refTime latest) now
  { id := booking.patientId,
    patientId := booking.patientId,
    patientName := booking.patientName,
    patientEmail := resolveEmail booking users,
    lastMessage := lastMessage,
    lastMessageTime := now - 2 * hourMs,
    unreadCount := unreadCount,
    status := status,
    messages := seedMessages identity booking lastMessage unreadCount now }

/-- Lines 55-132: the `therapistBookings.forEach` loop with the
`patientMap.has(patientId)` guard, as a structural recursion carrying the
accumulated conversation list (the `Map` preserves insertion order, so the
accumulator is a list extended at the back). -/
def loadLoop (tb : List Booking) (users : List UserRec) (identity : Identity)
    (now : Int) : List Booking → List Conversation → List Conversation
  | [], acc => acc
  | b :: rest, acc =>
    if acc.any (fun c => c.id == b.patientId) then
      loadLoop tb users identity now rest acc
    else
      loadLoop tb users identity now rest (acc ++ [mkConversation tb users identity now b])

/-- Lines 43-135: the pure core of `loadConversations`: filter the bookings
to the current therapist, then build one conversation per first-seen patient
id, in first-encounter order (`Array.from(patientMap.values())`). -/
def loadConversationsCore (allBookings : List Booking) (registeredUsers : List UserRec)
    (identity : Identity) (now : Int) : List Conversation :=
  let therapistBookings := allBookings.filter (matchesTherapist identity)
  loadLoop therapistBookings registeredUsers identity now therapistBookings []

/-- First-occurrence deduplication of a list of patient ids, in the same
loop shape as `loadLoop`, used to state what the conversation ids are. -/
def dedupFirst : List String → List String → List String
  | [], acc => acc
  | x :: xs, acc =>
    if acc.any (fun y => y == x) then dedupFirst xs acc
    else dedupFirst xs (acc ++ [x])

/-- The substring test of JS `String.prototype.includes` (lines 187-188):
`needle` occurs contiguously in `hay`, checked at every start position. -/
def strIncludes (hay needle : String) : Bool :=
  (List.range (hay.toList.length + 1)).any
    (fun i => ((hay.toList.drop i).take needle.toList.length) == needle.toList)

/-- JS `String.prototype.toLowerCase`, character-wise over the character
list so it evaluates by kernel reduction. -/
def jsToLower (s : String) : String :=
  String.mk (s.toList.map Char.toLower)

/-- Lines 186-189: `filteredConversations` — keep the conversations whose
lowercased patient name or lowercased last message includes the lowercased
search term. -/
def filteredConversations (conversations : List Conversation) (searchTerm : String) : List Conversation :=
  conversations.filter (fun conv =>
    strIncludes (jsToLower conv.patientName) (jsToLower searchTerm) ||
    strIncludes (jsToLower conv.lastMessage) (jsToLower searchTerm))

/-- The error taxonomy the spec assigns to the composer. -/
inductive SendError where
  | invalidInput
  | notFound
deriving DecidableEq

/-- The component state relevant to sending: the four `useState` cells of
MessagesPage (lines 36-39). -/
structure PageState where
  selectedConversation : Option String
  messageText : String
  searchTerm : String
  conversations : List Conversation
deriving DecidableEq

/-- JS falsy test on `selectedConversation : string | null`: null and the
empty string are falsy. -/
def selectedFalsy : Option String → Bool
  | none => true
  | some s => s.isEmpty

/-- JS `String.prototype.trim`: strip whitespace from both ends, written
directly over the character list so it evaluates by kernel reduction. -/
def jsTrim (s : String) : String :=
  String.mk (((s.toList.dropWhile Char.isWhitespace).reverse.dropWhile Char.isWhitespace).reverse)

/-- Lines 179-184: `handleSendMessage`.  The source returns `undefined` on
every path and never throws, so the `Except` error channel — which records
what the function surfaces to its caller — carries `Except.ok` on every
path.  The guard returns early on blank (post-trim empty) text or a falsy
selection; otherwise the only effect is `setMessageText('')` (the comment
on line 182 notes the actual send is not implemented). -/
def handleSendMessage (s : PageState) : Except SendError PageState :=
  if (jsTrim s.messageText).isEmpty || selectedFalsy s.selectedConversation then
    Except.ok s
  else
    Except.ok { s with messageText := "" }

deriving instance DecidableEq for Except

/-- Failure modes of reading the record store (spec section 7). -/
inductive LoadError where
  | storeUnavailable
  | malformedData
deriving DecidableEq

/-- Lines 43-45 plus the derivation: `loadConversations` with the two
`JSON.parse(localStorage.getItem(...))` reads made explicit as `Except`
inputs (a failed read or unparsable record is `Except.error`; `JSON.parse`
throws and nothing in `loadConversations` catches, so the error propagates
to the caller). -/
def loadConversationsE (rawBookings : Except LoadError (List Booking))
    (rawUsers : Except LoadError (List UserRec))
    (identity : Identity) (now : Int) : Except LoadError (List Conversation) := do
  let allBookings ← rawBookings
  let registeredUsers ← rawUsers
  pure (loadConversationsCore allBookings registeredUsers identity now)

/-- The effect of one refresh on the `conversations` state cell:
`setConversations` runs only when `loadConversations` completes (line 134);
on a thrown error no state write happens and the previous collection stands. -/
def applyRefresh (prev : List Conversation) (r : Except LoadError (List Conversation)) :
    List Conversation :=
  match r with
  | Except.ok cs => cs
  | Except.error _ => prev

/-- What the mount-time effect body (lines 41-155) would leave behind:
the derived conversations, and whether the 10-second interval and the
`storage` / `mindcare-data-updated` listeners were registered. -/
structure MountOutcome where
  conversations : List Conversation
  timerRegistered : Bool
  listenersRegistered : Bool
deriving DecidableEq

/-- Lines 137-148 of the effect body: the initial `loadConversations()` call
runs first; only if it completes are `setInterval` and the two
`addEventListener` calls reached.  A throw from the initial load therefore
aborts the mount before any trigger is registered. -/
def runMountEffect (rawBookings : Except LoadError (List Booking))
    (rawUsers : Except LoadError (List UserRec))
    (identity : Identity) (now : Int) : Except LoadError MountOutcome := do
  let convs ← loadConversationsE rawBookings rawUsers identity now
  pure { conversations := convs, timerRegistered := true, listenersRegistered := true }

/-- Whether the polling timer is live after the mount effect: false when the
effect aborted with an error. -/
def timerRegisteredAfterMount : Except LoadError MountOutcome → Bool
  | Except.ok m => m.timerRegistered
  | Except.error _ => false

/-- Modelled from the spec (section 4.3 failure semantics), for comparison
with `runMountEffect`: on a failed or malformed read the refresh is
abandoned, the previous collection is retained, the failure is recorded as
a non-fatal warning, and the timer stays registered. -/
structure MountOutcomeSpec where
  conversations : List Conversation
  timerRegistered : Bool
  warned : Bool
deriving DecidableEq

/-- Modelled from the spec: the mount behaviour section 4.3 prescribes —
errors from the store read are absorbed, previous state retained, warning
recorded, triggers registered regardless. -/
def runMountEffectSpec (rawBookings : Except LoadError (List Booking))
    (rawUsers : Except LoadError (List UserRec))
    (identity : Identity) (now : Int) (prev : List Conversation) : MountOutcomeSpec :=
  match loadConversationsE rawBookings rawUsers identity now with
  | Except.ok cs => { conversations := cs, timerRegistered := true, warned := false }
  | Except.error _ => { conversations := prev, timerRegistered := true, warned := true }

/-- The value bindings imported at lines 1-9 of MessagesPage.tsx: the React
default import plus `useState` (line 1: `import React, { useState } from
'react'` — `useEffect` is not among them), `motion`, the lucide icons, and
the two context hooks. -/
def moduleImportedNames : List String :=
  ["React", "useState", "motion",
   "MessageSquare", "Send", "Search", "User", "Phone", "Video",
   "Paperclip", "Smile", "MoreVertical", "Archive", "Star",
   "Clock", "CheckCircle", "AlertCircle", "useAuth", "useTheme"]

/-- The top-level declarations of the module itself. -/
def moduleLocalNames : List String := ["MessagesPage"]

/-- JS identifier resolution for a bare identifier used inside the component:
it must be bound by an import or a module-level declaration, else evaluating
it throws a ReferenceError. -/
def identifierInModuleScope (n : String) : Bool :=
  moduleImportedNames.contains n || moduleLocalNames.contains n

/-- Outcome of rendering the MessagesPage component once. -/
inductive RenderResult where
  | rendered (st : PageState) (timerRegistered : Bool) (listenersRegistered : Bool)
  | mountError (e : LoadError)
  | referenceError (name : String)
deriving DecidableEq

/-- Rendering MessagesPage: the component body evaluates `useEffect(...)` at
line 41; if the identifier resolved, the effect (lines 41-155) would run
against the store and the derived conversations would land in state;
an unresolvable identifier throws a ReferenceError naming it, before any
derivation work. -/
def renderMessagesPage (rawBookings : Except LoadError (List Booking))
    (rawUsers : Except LoadError (List UserRec))
    (identity : Identity) (now : Int) : RenderResult :=
  if identifierInModuleScope "useEffect" then
    match runMountEffect rawBookings rawUsers identity now with
    | Except.ok m =>
        RenderResult.rendered
          { selectedConversation := none, messageText := "", searchTerm := "",
            conversations := m.conversations }
          m.timerRegistered m.listenersRegistered
    | Except.error e => RenderResult.mountError e
  else
    RenderResult.referenceError "useEffect"

/-- The `conversations` state cell after a render attempt: the initial
`useState([])` value unless a successful mount replaced it. -/
def conversationsAfterRender : RenderResult → List Conversation
  | RenderResult.rendered st _ _ => st.conversations
  | RenderResult.mountError _ => []
  | RenderResult.referenceError _ => []

/-- Whether the polling interval is registered after a render attempt. -/
def timerAfterRender : RenderResult → Bool
  | RenderResult.rendered _ t _ => t
  | RenderResult.mountError _ => false
  | RenderResult.referenceError _ => false

/-- Whether the storage / mindcare-data-updated listeners are registered
after a render attempt. -/
def listenersAfterRender : RenderResult → Bool
  | RenderResult.rendered _ _ l => l
  | RenderResult.mountError _ => false
  | RenderResult.referenceError _ => false

/-- The invariant of spec section 3: `lastMessage` / `lastMessageTime`
mirror a chronologically last message of the conversation's sequence. -/
def lastMessageInvariant (c : Conversation) : Prop :=
  ∃ m, m ∈ c.messages ∧ (∀ x, x ∈ c.messages → x.timestamp ≤ m.timestamp)
    ∧ c.lastMessage = m.content ∧ c.lastMessageTime = m.timestamp

theorem strIncludes_iff (hay needle : String) :
    strIncludes hay needle = true ↔ needle.toList <:+: hay.toList := by
  unfold strIncludes
  rw [List.any_eq_true]
  constructor
  · rintro ⟨i, _, heq⟩
    have heq' : (hay.toList.drop i).take needle.toList.length = needle.toList :=
      beq_iff_eq.mp heq
    have hpre : needle.toList <+: hay.toList.drop i :=
      List.prefix_iff_eq_take.mpr heq'.symm
    exact List.infix_iff_prefix_suffix.mpr ⟨hay.toList.drop i, hpre, List.drop_suffix i hay.toList⟩
  · rintro ⟨s, t, hst⟩
    refine ⟨s.length, ?_, ?_⟩
    · rw [List.mem_range]
      have hlen := congrArg List.length hst
      rw [List.length_append, List.length_append] at hlen
      omega
    · have hdrop : hay.toList.drop s.length = needle.toList ++ t := by
        rw [← hst, List.append_assoc, List.drop_left]
      rw [hdrop, List.take_left]
      exact beq_self_eq_true _

/-- C5: for every reference time `t` and current time `now` with `now >= t`,
the presence status is online exactly when the elapsed time is in
[0, 2 hours), away exactly when it is in [2 hours, 24 hours), offline
exactly when it is at least 24 hours; at exactly 2 hours the status is
away and at exactly 24 hours it is offline.  (Hours are in milliseconds:
2 hours = 2 * hourMs, 24 hours = 24 * hourMs.) -/
theorem presence_time_buckets (t now : Int) (h : t ≤ now) :
    (presence t now = Status.online ↔ 0 ≤ now - t ∧ now - t < 2 * hourMs)
    ∧ (presence t now = Status.away ↔ 2 * hourMs ≤ now - t ∧ now - t < 24 * hourMs)
    ∧ (presence t now = Status.offline ↔ 24 * hourMs ≤ now - t)
    ∧ presence t (t + 2 * hourMs) = Status.away
    ∧ presence t (t + 24 * hourMs) = Status.offline := by
  refine ⟨?_, ?_, ?_, ?_, ?_⟩ <;>
    simp only [presence, hourMs] <;> split_ifs <;> simp_all <;> omega

/-- Witness for C5: at elapsed one hour the status is online, as the theorem
instantiated at `t = 0`, `now = hourMs` yields. -/
theorem presence_time_buckets_witness : presence 0 hourMs = Status.online :=
  ((presence_time_buckets 0 hourMs (by decide)).1).mpr (by decide)

/-- A concrete conversation used in the send scenarios. -/
def convS : Conversation :=
  { id := "p1", patientId := "p1", patientName := "Alice", patientEmail := "a@x.com",
    lastMessage := "hi", lastMessageTime := 0, unreadCount := 0, status := Status.online,
    messages := [ { id := "m1", senderId := "p1", senderName := "Alice", content := "hi",
                    timestamp := 0, type := MsgType.text, read := true } ] }

/-- A page state with a selected, existing conversation and non-blank text. -/
def stSend : PageState :=
  { selectedConversation := some "p1", messageText := "hello", searchTerm := "",
    conversations := [convS] }

/-- A page state with a selected, existing conversation and whitespace-only text. -/
def stBlank : PageState :=
  { selectedConversation := some "p1", messageText := "   ", searchTerm := "",
    conversations := [convS] }

/-- Counterexample for C1: at a state whose selected conversation exists and
whose composer text is non-blank, `handleSendMessage` leaves every
conversation — in particular its message sequence, of length 1 before and
after — unchanged, and only clears the composer text; no `Message` is
appended, so the message count does not grow from 1 to 2. -/
theorem send_does_not_append_cex :
    handleSendMessage stSend = Except.ok { stSend with messageText := "" }
    ∧ PageState.conversations { stSend with messageText := "" } = stSend.conversations
    ∧ stSend.conversations.map (fun c => c.messages.length) = [1]
    ∧ ¬ ((match handleSendMessage stSend with
          | Except.ok s2 => s2.conversations.map (fun c => c.messages.length)
          | Except.error _ => []) = [2]) := by
  refine ⟨rfl, rfl, rfl, ?_⟩
  decide

/-- C1 (amended): for every page state whose composer text is non-empty
after trimming and whose selected-conversation id is truthy, `send` merely
clears the composer text and returns without error; the conversation
collection — message sequences, `lastMessage` and `lastMessageTime`
included — is unchanged, and no message is appended. -/
theorem send_clears_text_only (s : PageState)
    (h1 : (jsTrim s.messageText).isEmpty = false)
    (h2 : selectedFalsy s.selectedConversation = false) :
    handleSendMessage s = Except.ok { s with messageText := "" }
    ∧ PageState.conversations { s with messageText := "" } = s.conversations := by
  refine ⟨?_, rfl⟩
  simp [handleSendMessage, h1, h2]

/-- Witness for the amended C1 at the concrete state `stSend`. -/
theorem send_clears_text_only_witness :
    handleSendMessage stSend = Except.ok { stSend with messageText := "" } :=
  (send_clears_text_only stSend (by decide) (by decide)).1

/-- Counterexample for C2: at a state whose composer text is whitespace-only,
`handleSendMessage` returns successfully with the state unchanged — it does
not fail with a typed `InvalidInput` error; the failure is silently
dropped. -/
theorem send_blank_no_error_cex :
    handleSendMessage stBlank = Except.ok stBlank
    ∧ handleSendMessage stBlank ≠ Except.error SendError.invalidInput := by
  have h : handleSendMessage stBlank = Except.ok stBlank := by decide
  refine ⟨h, ?_⟩
  rw [h]
  exact fun hc => Except.noConfusion hc

/-- C2 (amended): for every page state, `send` with text that is empty or
whitespace-only is a silent no-op: it returns successfully with the page
state — in particular the targeted conversation's message sequence —
unchanged, and no typed error is surfaced to the caller. -/
theorem send_blank_silent_noop (s : PageState) (h : (jsTrim s.messageText).isEmpty = true) :
    handleSendMessage s = Except.ok s := by
  simp [handleSendMessage, h]

/-- Witness for the amended C2 at the concrete state `stBlank`. -/
theorem send_blank_silent_noop_witness :
    handleSendMessage stBlank = Except.ok stBlank :=
  send_blank_silent_noop stBlank (by decide)

/-- A concrete provider identity for the failure scenarios. -/
def identW : Identity := { id := "t1", name := "Dr. A" }

/-- Counterexample for C7: with a malformed bookings read, the mount-time
load does not absorb the failure as a warning — it propagates the error
out of the effect and aborts before the interval timer is registered,
whereas the spec-modelled behaviour keeps the timer registered and records
a warning. -/
theorem refresh_failure_cex :
    runMountEffect (Except.error LoadError.malformedData) (Except.ok []) identW 0
      = Except.error LoadError.malformedData
    ∧ timerRegisteredAfterMount
        (runMountEffect (Except.error LoadError.malformedData) (Except.ok []) identW 0) = false
    ∧ (runMountEffectSpec (Except.error LoadError.malformedData) (Except.ok []) identW 0 []).timerRegistered
        = true
    ∧ (runMountEffectSpec (Except.error LoadError.malformedData) (Except.ok []) identW 0 []).warned
        = true :=
  ⟨rfl, rfl, rfl, rfl⟩

/-- C7 (amended): when a record-store read fails or yields malformed data,
the `conversations` state cell is never written (so the previously held
collection is retained), but the failure is not reported as a caught
warning: the error propagates out of the load uncaught, and when it occurs
during the initial mount load the refresh aborts before the polling timer
or the mutation listeners are registered, so that mount schedules no
future refresh attempts. -/
theorem refresh_failure_aborts (e : LoadError) (rawU : Except LoadError (List UserRec))
    (bs : List Booking) (identity : Identity) (now : Int) (prev : List Conversation) :
    loadConversationsE (Except.error e) rawU identity now = Except.error e
    ∧ loadConversationsE (Except.ok bs) (Except.error e) identity now = Except.error e
    ∧ applyRefresh prev (loadConversationsE (Except.error e) rawU identity now) = prev
    ∧ runMountEffect (Except.error e) rawU identity now = Except.error e
    ∧ timerRegisteredAfterMount (runMountEffect (Except.error e) rawU identity now) = false :=
  ⟨rfl, rfl, rfl, rfl, rfl⟩

/-- C10: rendering MessagesPage always raises a ReferenceError for the bare
identifier `useEffect` (only `useState` is imported from React and no
local `useEffect` binding exists), before any conversation is derived;
consequently the polling timer and the storage / mindcare-data-updated
listeners are never registered — so their paired teardown can never run —
and the conversation collection remains the initial empty list, whatever
the record store holds. -/
theorem render_always_reference_error (rawB : Except LoadError (List Booking))
    (rawU : Except LoadError (List UserRec)) (identity : Identity) (now : Int) :
    renderMessagesPage rawB rawU identity now = RenderResult.referenceError "useEffect"
    ∧ identifierInModuleScope "useEffect" = false
    ∧ conversationsAfterRender (renderMessagesPage rawB rawU identity now) = []
    ∧ timerAfterRender (renderMessagesPage rawB rawU identity now) = false
    ∧ listenersAfterRender (renderMessagesPage rawB rawU identity now) = false := by
  have h : identifierInModuleScope "useEffect" = false := by decide
  have hr : renderMessagesPage rawB rawU identity now = RenderResult.referenceError "useEffect" := by
    simp [renderMessagesPage, h]
  exact ⟨hr, h, by rw [hr]; rfl, by rw [hr]; rfl, by rw [hr]; rfl⟩

/-- C6: for every conversation collection and search term, the filter keeps
exactly the conversations whose patient display name or last-message text
contains the term as a case-insensitive substring (inclusive OR), it
preserves the collection's order (the result is a sublist), and the empty
term returns the whole collection. -/
theorem search_filters_by_name_or_last_message (convs : List Conversation) (term : String) :
    (∀ c : Conversation, c ∈ filteredConversations convs term ↔
       c ∈ convs ∧ ((jsToLower term).toList <:+: (jsToLower c.patientName).toList
         ∨ (jsToLower term).toList <:+: (jsToLower c.lastMessage).toList))
    ∧ (filteredConversations convs term).Sublist convs
    ∧ filteredConversations convs "" = convs := by
  refine ⟨?_, List.filter_sublist _, ?_⟩
  · intro c
    unfold filteredConversations
    rw [List.mem_filter, Bool.or_eq_true, strIncludes_iff, strIncludes_iff]
  · unfold filteredConversations
    rw [List.filter_eq_self]
    intro c _
    rw [Bool.or_eq_true, strIncludes_iff]
    left
    have he : (jsToLower "").toList = ([] : List Char) := rfl
    rw [he]
    exact List.nil_infix

theorem mkConversation_id (tb : List Booking) (users : List UserRec) (identity : Identity)
    (now : Int) (b : Booking) :
    (mkConversation tb users identity now b).id = b.patientId := rfl

theorem loadLoop_map_id (tb : List Booking) (users : List UserRec) (identity : Identity)
    (now : Int) : ∀ (bs : List Booking) (acc : List Conversation),
    (loadLoop tb users identity now bs acc).map (fun c => c.id)
      = dedupFirst (bs.map (fun b => b.patientId)) (acc.map (fun c => c.id)) := by
  intro bs
  induction bs with
  | nil => intro acc; rfl
  | cons b rest ih =>
    intro acc
    have hany : (acc.map (fun c => c.id)).any (fun y => y == b.patientId)
        = acc.any (fun c => c.id == b.patientId) := by
      induction acc with
      | nil => rfl
      | cons a as iha => simp only [List.map_cons, List.any_cons, iha]
    cases hg : acc.any (fun c => c.id == b.patientId) with
    | true =>
      simp only [loadLoop, dedupFirst, List.map_cons, hany, hg, if_true]
      exact ih acc
    | false =>
      simp only [loadLoop, dedupFirst, List.map_cons, hany, hg, Bool.false_eq_true, if_false]
      rw [ih (acc ++ [mkConversation tb users identity now b]), List.map_append]
      rfl

theorem dedupFirst_mem : ∀ (xs acc : List String) (y : String),
    y ∈ dedupFirst xs acc ↔ y ∈ acc ∨ y ∈ xs := by
  intro xs
  induction xs with
  | nil => intro acc y; simp [dedupFirst]
  | cons x rest ih =>
    intro acc y
    cases hca : acc.any (fun z => z == x) with
    | true =>
      have hx : x ∈ acc := by
        rcases List.any_eq_true.mp hca with ⟨a, ha, hax⟩
        rwa [beq_iff_eq.mp hax] at ha
      simp only [dedupFirst, hca, if_true, ih, List.mem_cons]
      constructor
      · rintro (hy | hy)
        · exact Or.inl hy
        · exact Or.inr (Or.inr hy)
      · rintro (hy | hy | hy)
        · exact Or.inl hy
        · exact Or.inl (hy ▸ hx)
        · exact Or.inr hy
    | false =>
      simp only [dedupFirst, hca, Bool.false_eq_true, if_false, ih, List.mem_append,
        List.mem_singleton, List.mem_cons]
      tauto

theorem dedupFirst_nodup : ∀ (xs acc : List String), acc.Nodup → (dedupFirst xs acc).Nodup := by
  intro xs
  induction xs with
  | nil => intro acc h; exact h
  | cons x rest ih =>
    intro acc h
    cases hca : acc.any (fun z => z == x) with
    | true =>
      simp only [dedupFirst, hca, if_true]
      exact ih acc h
    | false =>
      have hx : x ∉ acc := by
        intro hmem
        have : acc.any (fun z => z == x) = true :=
          List.any_eq_true.mpr ⟨x, hmem, beq_self_eq_true x⟩
        rw [hca] at this
        exact Bool.noConfusion this
      have h2 : (acc ++ [x]).Nodup :=
        List.nodup_append.mpr ⟨h, List.nodup_singleton x, List.disjoint_singleton.mpr hx⟩
      simp only [dedupFirst, hca, Bool.false_eq_true, if_false]
      exact ih _ h2

theorem loadLoop_mem (tb : List Booking) (users : List UserRec) (identity : Identity)
    (now : Int) : ∀ (bs : List Booking) (acc : List Conversation) (c : Conversation),
    c ∈ loadLoop tb users identity now bs acc →
    c ∈ acc ∨ (acc.any (fun a => a.id == c.id) = false
      ∧ ∃ b0, bs.find? (fun b => b.patientId == c.id) = some b0
        ∧ c = mkConversation tb users identity now b0) := by
  intro bs
  induction bs with
  | nil => intro acc c hc; exact Or.inl hc
  | cons b rest ih =>
    intro acc c hc
    cases hg : acc.any (fun a => a.id == b.patientId) with
    | true =>
      rw [show loadLoop tb users identity now (b :: rest) acc
            = loadLoop tb users identity now rest acc by simp [loadLoop, hg]] at hc
      rcases ih acc c hc with h | ⟨hfa, b0, hfind, heq⟩
      · exact Or.inl h
      · have hne : (b.patientId == c.id) = false := by
          cases hbe : (b.patientId == c.id) with
          | false => rfl
          | true =>
            rw [beq_iff_eq.mp hbe] at hg
            rw [hg] at hfa
            exact Bool.noConfusion hfa
        refine Or.inr ⟨hfa, b0, ?_, heq⟩
        rw [List.find?_cons_of_neg _ (by rw [hne]; exact Bool.noConfusion)]
        exact hfind
    | false =>
      rw [show loadLoop tb users identity now (b :: rest) acc
            = loadLoop tb users identity now rest
                (acc ++ [mkConversation tb users identity now b]) by simp [loadLoop, hg]] at hc
      rcases ih _ c hc with h | ⟨hfa, b0, hfind, heq⟩
      · rcases List.mem_append.mp h with h | h
        · exact Or.inl h
        · have hceq : c = mkConversation tb users identity now b := List.mem_singleton.mp h
          have hid : c.id = b.patientId := by rw [hceq]; rfl
          refine Or.inr ⟨by rw [hid]; exact hg, b, ?_, hceq⟩
          exact List.find?_cons_of_pos _ (by rw [hid]; exact beq_self_eq_true _)
      · rw [List.any_append] at hfa
        have hfa1 : acc.any (fun a => a.id == c.id) = false := by
          revert hfa
          cases acc.any (fun a => a.id == c.id) <;> simp
        have hfa2 : ([mkConversation tb users identity now b].any (fun a => a.id == c.id)) = false := by
          revert hfa
          cases [mkConversation tb users identity now b].any (fun a => a.id == c.id) <;> simp
        have hne : (b.patientId == c.id) = false := by
          have h3 : ((mkConversation tb users identity now b).id == c.id) = false := by
            simpa using hfa2
          simpa [mkConversation_id] using h3
        refine Or.inr ⟨hfa1, b0, ?_, heq⟩
        rw [List.find?_cons_of_neg _ (by rw [hne]; exact Bool.noConfusion)]
        exact hfind

theorem loadCore_mem (allBookings : List Booking) (users : List UserRec)
    (identity : Identity) (now : Int) (c : Conversation)
    (hc : c ∈ loadConversationsCore allBookings users identity now) :
    ∃ b0, (allBookings.filter (matchesTherapist identity)).find?
        (fun b => b.patientId == c.id) = some b0
      ∧ c = mkConversation (allBookings.filter (matchesTherapist identity)) users identity now b0 := by
  have h0 : loadConversationsCore allBookings users identity now
      = loadLoop (allBookings.filter (matchesTherapist identity)) users identity now
          (allBookings.filter (matchesTherapist identity)) [] := rfl
  rw [h0] at hc
  rcases loadLoop_mem _ users identity now _ [] c hc with h | ⟨_, b0, hfind, heq⟩
  · cases h
  · exact ⟨b0, hfind, heq⟩

theorem foldl_pick_spec (bs : List Booking) : ∀ b : Booking,
    (List.foldl pickLater b bs = b ∧ ∀ x ∈ bs, refTime x ≤ refTime b)
    ∨ (refTime b < refTime (List.foldl pickLater b bs)
       ∧ ∃ l₁ l₂, bs = l₁ ++ (List.foldl pickLater b bs) :: l₂
         ∧ (∀ x ∈ l₁, refTime x < refTime (List.foldl pickLater b bs))
         ∧ (∀ x ∈ l₂, refTime x ≤ refTime (List.foldl pickLater b bs))) := by
  induction bs with
  | nil =>
    intro b
    left
    exact ⟨rfl, by simp⟩
  | cons x rest ih =>
    intro b
    by_cases hx : refTime b < refTime x
    · have hstep : List.foldl pickLater b (x :: rest) = List.foldl pickLater x rest := by
        simp only [List.foldl_cons, pickLater, gt_iff_lt, hx, if_true]
      rw [hstep]
      rcases ih x with ⟨he, hall⟩ | ⟨hlt, l₁, l₂, hs, h1, h2⟩
      · right
        rw [he]
        exact ⟨hx, [], rest, rfl, by simp, hall⟩
      · right
        refine ⟨lt_trans hx hlt, x :: l₁, l₂, by rw [List.cons_append, ← hs], ?_, h2⟩
        intro y hy
        rcases List.mem_cons.mp hy with hy | hy
        · rw [hy]; exact hlt
        · exact h1 y hy
    · have hstep : List.foldl pickLater b (x :: rest) = List.foldl pickLater b rest := by
        simp only [List.foldl_cons, pickLater, gt_iff_lt, hx, if_false]
      rw [hstep]
      rcases ih b with ⟨he, hall⟩ | ⟨hlt, l₁, l₂, hs, h1, h2⟩
      · left
        refine ⟨he, ?_⟩
        intro y hy
        rcases List.mem_cons.mp hy with hy | hy
        · rw [hy]; exact le_of_not_lt hx
        · exact hall y hy
      · right
        refine ⟨hlt, x :: l₁, l₂, by rw [List.cons_append, ← hs], ?_, h2⟩
        intro y hy
        rcases List.mem_cons.mp hy with hy | hy
        · rw [hy]; exact lt_of_le_of_lt (le_of_not_lt hx) hlt
        · exact h1 y hy

theorem latestBooking_spec (g : List Booking) (lb : Booking)
    (h : latestBooking g = some lb) :
    lb ∈ g ∧ (∀ x ∈ g, refTime x ≤ refTime lb)
    ∧ ∃ l₁ l₂, g = l₁ ++ lb :: l₂ ∧ ∀ x ∈ l₁, refTime x < refTime lb := by
  cases g with
  | nil => exact Option.noConfusion h
  | cons b bs =>
    have hlb : List.foldl pickLater b bs = lb := by
      have := h
      unfold latestBooking at this
      injection this
    rcases foldl_pick_spec bs b with ⟨he, hall⟩ | ⟨hlt, l₁, l₂, hs, h1, h2⟩
    · have hbe : lb = b := by rw [← hlb, he]
      refine ⟨?_, ?_, [], bs, ?_, by simp⟩
      · rw [hbe]; exact List.mem_cons_self b bs
      · intro y hy
        rcases List.mem_cons.mp hy with hy | hy
        · rw [hy, hbe]
        · rw [hbe]; exact hall y hy
      · rw [hbe]; rfl
    · rw [hlb] at hlt hs h1 h2
      refine ⟨?_, ?_, b :: l₁, l₂, by rw [hs, List.cons_append], ?_⟩
      · rw [hs]
        exact List.mem_cons_of_mem b (by simp)
      · intro y hy
        rcases List.mem_cons.mp hy with hy | hy
        · rw [hy]; exact le_of_lt hlt
        · rw [hs] at hy
          rcases List.mem_append.mp hy with hy | hy
          · exact le_of_lt (h1 y hy)
          · rcases List.mem_cons.mp hy with hy | hy
            · rw [hy]
            · exact h2 y hy
      · intro y hy
        rcases List.mem_cons.mp hy with hy | hy
        · rw [hy]; exact hlt
        · exact h1 y hy

theorem mkConversation_fields (tb : List Booking) (users : List UserRec)
    (identity : Identity) (now : Int) (b : Booking) (lb : Booking)
    (hlb : latestBooking (tb.filter (fun b2 => b2.patientId == b.patientId)) = some lb) :
    (mkConversation tb users identity now b).lastMessage = lastMessageFor lb.status
    ∧ (mkConversation tb users identity now b).unreadCount = unreadFor lb.status
    ∧ (mkConversation tb users identity now b).status = presence (refTime lb) now
    ∧ (mkConversation tb users identity now b).patientName = b.patientName
    ∧ (mkConversation tb users identity now b).patientEmail = resolveEmail b users
    ∧ (mkConversation tb users identity now b).messages
        = seedMessages identity b (lastMessageFor lb.status) (unreadFor lb.status) now
    ∧ (mkConversation tb users identity now b).lastMessageTime = now - 2 * hourMs := by
  simp [mkConversation, hlb]

theorem seed_last (identity : Identity) (b : Booking) (lm : String) (uc : Nat) (now : Int) :
    ∃ m, m ∈ seedMessages identity b lm uc now
      ∧ (∀ x, x ∈ seedMessages identity b lm uc now → x.timestamp ≤ m.timestamp)
      ∧ lm = m.content ∧ now - 2 * hourMs = m.timestamp := by
  refine ⟨⟨"m_" ++ b.patientId ++ "_3", b.patientId, b.patientName, lm,
      now - 2 * hourMs, MsgType.text, uc == 0⟩, ?_, ?_, rfl, rfl⟩
  · simp [seedMessages]
  · intro x hx
    simp only [seedMessages, List.mem_cons, List.not_mem_nil, or_false] at hx
    rcases hx with h | h | h
    all_goals rw [h]
    all_goals simp only [hourMs]
    all_goals omega

theorem mkConversation_invariant (tb : List Booking) (users : List UserRec)
    (identity : Identity) (now : Int) (b : Booking) :
    lastMessageInvariant (mkConversation tb users identity now b) := by
  have h1 : (mkConversation tb users identity now b).messages
      = seedMessages identity b (mkConversation tb users identity now b).lastMessage
          (mkConversation tb users identity now b).unreadCount now := rfl
  have h2 : (mkConversation tb users identity now b).lastMessageTime = now - 2 * hourMs := rfl
  obtain ⟨m, hm, hmax, hcont, hts⟩ := seed_last identity b
    ((mkConversation tb users identity now b).lastMessage)
    ((mkConversation tb users identity now b).unreadCount) now
  exact ⟨m, by rw [h1]; exact hm, by rw [h1]; exact hmax, hcont, by rw [h2]; exact hts⟩

/-- C3: for every booking list, user list and provider identity, the
derivation produces exactly one Conversation per distinct patient id
among the bookings matching the identity (a booking matches when its
provider name equals the identity's name or its provider id equals the
identity's id, inclusive OR — that is `matchesTherapist`): the conversation
ids are exactly the first-occurrence deduplication of the matching
bookings' patient ids, they contain no duplicates, and an id appears iff
some matching booking carries it — so no Conversation is produced for a
patient with no matching booking. -/
theorem one_conversation_per_matching_patient (allBookings : List Booking)
    (users : List UserRec) (identity : Identity) (now : Int) :
    ((loadConversationsCore allBookings users identity now).map (fun c => c.id))
      = dedupFirst ((allBookings.filter (matchesTherapist identity)).map (fun b => b.patientId)) []
    ∧ ((loadConversationsCore allBookings users identity now).map (fun c => c.id)).Nodup
    ∧ (∀ pid : String,
        pid ∈ (loadConversationsCore allBookings users identity now).map (fun c => c.id)
          ↔ pid ∈ (allBookings.filter (matchesTherapist identity)).map (fun b => b.patientId)) := by
  have h1 : ((loadConversationsCore allBookings users identity now).map (fun c => c.id))
      = dedupFirst ((allBookings.filter (matchesTherapist identity)).map (fun b => b.patientId)) [] := by
    have h0 : loadConversationsCore allBookings users identity now
        = loadLoop (allBookings.filter (matchesTherapist identity)) users identity now
            (allBookings.filter (matchesTherapist identity)) [] := rfl
    rw [h0]
    exact loadLoop_map_id _ users identity now _ []
  refine ⟨h1, ?_, ?_⟩
  · rw [h1]
    exact dedupFirst_nodup _ [] List.nodup_nil
  · intro pid
    rw [h1, dedupFirst_mem]
    simp

/-- C4: every conversation the derivation emits is built from the latest
matching booking of its patient group — the first maximum of the group by
reference time (creation time if present, else appointment date), so ties
go to the earliest in original collection order — and its `lastMessage`
and `unreadCount` are mapped from that booking's status: `completed` gives
the thank-you message with 0 unread, `pending_confirmation` the
confirmation request with 1 unread, `confirmed` the appointment reminder
with 0 unread, anything else the generic looking-forward message with 0
unread. -/
theorem conversation_from_latest_booking (allBookings : List Booking) (users : List UserRec)
    (identity : Identity) (now : Int) (c : Conversation)
    (hc : c ∈ loadConversationsCore allBookings users identity now) :
    ∃ lb, latestBooking ((allBookings.filter (matchesTherapist identity)).filter
        (fun b => b.patientId == c.id)) = some lb
      ∧ lb ∈ (allBookings.filter (matchesTherapist identity)).filter
          (fun b => b.patientId == c.id)
      ∧ (∀ x ∈ (allBookings.filter (matchesTherapist identity)).filter
            (fun b => b.patientId == c.id), refTime x ≤ refTime lb)
      ∧ (∃ l₁ l₂, (allBookings.filter (matchesTherapist identity)).filter
            (fun b => b.patientId == c.id) = l₁ ++ lb :: l₂
          ∧ ∀ x ∈ l₁, refTime x < refTime lb)
      ∧ c.lastMessage = lastMessageFor lb.status
      ∧ c.unreadCount = unreadFor lb.status
      ∧ (lb.status = "completed" →
          c.lastMessage = "Thank you for the session today. I feel much better."
          ∧ c.unreadCount = 0)
      ∧ (lb.status = "pending_confirmation" →
          c.lastMessage = "I just booked an appointment. Can you confirm the time?"
          ∧ c.unreadCount = 1)
      ∧ (lb.status = "confirmed" →
          c.lastMessage = "See you at our scheduled appointment."
          ∧ c.unreadCount = 0)
      ∧ (lb.status ≠ "completed" → lb.status ≠ "pending_confirmation" →
          lb.status ≠ "confirmed" →
          c.lastMessage = "Looking forward to our session."
          ∧ c.unreadCount = 0) := by
  obtain ⟨b0, hfind, heq⟩ := loadCore_mem allBookings users identity now c hc
  have hid : b0.patientId = c.id := by
    have h := List.find?_some hfind
    exact beq_iff_eq.mp h
  have hb0m : b0 ∈ allBookings.filter (matchesTherapist identity) :=
    List.mem_of_find?_eq_some hfind
  have hb0g : b0 ∈ (allBookings.filter (matchesTherapist identity)).filter
      (fun b => b.patientId == c.id) :=
    List.mem_filter.mpr ⟨hb0m, by rw [hid]; exact beq_self_eq_true _⟩
  have hpred : (fun b : Booking => b.patientId == c.id)
      = (fun b2 : Booking => b2.patientId == b0.patientId) := by
    funext b2
    rw [hid]
  obtain ⟨lb, hlb⟩ : ∃ lb, latestBooking ((allBookings.filter (matchesTherapist identity)).filter
      (fun b => b.patientId == c.id)) = some lb := by
    cases hg : (allBookings.filter (matchesTherapist identity)).filter
        (fun b => b.patientId == c.id) with
    | nil => rw [hg] at hb0g; cases hb0g
    | cons hd tl => exact ⟨List.foldl pickLater hd tl, rfl⟩
  obtain ⟨hmem, hmax, hsplit⟩ := latestBooking_spec _ lb hlb
  have hlb' : latestBooking ((allBookings.filter (matchesTherapist identity)).filter
      (fun b2 => b2.patientId == b0.patientId)) = some lb := by
    rw [← hpred]
    exact hlb
  obtain ⟨hlm, huc, _, _, _, _, _⟩ :=
    mkConversation_fields (allBookings.filter (matchesTherapist identity))
      users identity now b0 lb hlb'
  have hclm : c.lastMessage = lastMessageFor lb.status := by rw [heq]; exact hlm
  have hcuc : c.unreadCount = unreadFor lb.status := by rw [heq]; exact huc
  refine ⟨lb, hlb, hmem, hmax, hsplit, hclm, hcuc, ?_, ?_, ?_, ?_⟩
  · intro hst
    rw [hclm, hcuc]
    simp [lastMessageFor, unreadFor, hst]
  · intro hst
    rw [hclm, hcuc]
    simp [lastMessageFor, unreadFor, hst]
  · intro hst
    rw [hclm, hcuc]
    simp [lastMessageFor, unreadFor, hst]
  · intro h1 h2 h3
    rw [hclm, hcuc]
    simp [lastMessageFor, unreadFor, h1, h2, h3]

/-- First booking of the two-booking scenario: patient `p1` named Alice,
pending confirmation, created at 1000. -/
def bkA : Booking :=
  { patientId := "p1", patientName := "Alice", patientEmail := some "alice@x.com",
    therapistId := "t1", therapistName := "Dr. A", status := "pending_confirmation",
    createdAt := some 1000, date := 900 }

/-- Second booking of the scenario: the same patient `p1` under the name
Alicia, completed, created later at 2000. -/
def bkB : Booking :=
  { patientId := "p1", patientName := "Alicia", patientEmail := none,
    therapistId := "t1", therapistName := "Dr. A", status := "completed",
    createdAt := some 2000, date := 1900 }

/-- The scenario's current time. -/
def nowW : Int := 100000000

/-- The conversation the derivation emits for patient `p1` in the
two-booking scenario. -/
def cW : Conversation :=
  mkConversation ([bkA, bkB].filter (matchesTherapist identW)) [] identW nowW bkA

/-- Witness for C4 in the two-booking scenario: the latest booking is the
completed one, so the conversation carries the thank-you message with 0
unread. -/
theorem conversation_from_latest_booking_witness :
    cW.lastMessage = "Thank you for the session today. I feel much better."
    ∧ cW.unreadCount = 0 := by
  obtain ⟨lb, hlb, _, _, _, hlm, huc, hcomp, _, _, _⟩ :=
    conversation_from_latest_booking [bkA, bkB] [] identW nowW cW (by decide)
  have hlbB : latestBooking (([bkA, bkB].filter (matchesTherapist identW)).filter
      (fun b => b.patientId == cW.id)) = some bkB := by decide
  rw [hlbB] at hlb
  injection hlb with hE
  have hstat : lb.status = "completed" := by rw [← hE]; rfl
  exact hcomp hstat

/-- C8: in every Conversation a derivation pass produces, `lastMessage`
equals the content of the chronologically last message of the
conversation's sequence and `lastMessageTime` equals that message's
timestamp; and a successful send leaves the conversation collection — and
with it this invariant — unchanged. -/
theorem last_message_reflects_sequence :
    (∀ (allBookings : List Booking) (users : List UserRec) (identity : Identity)
       (now : Int) (c : Conversation),
        c ∈ loadConversationsCore allBookings users identity now → lastMessageInvariant c)
    ∧ (∀ s r : PageState, handleSendMessage s = Except.ok r → r.conversations = s.conversations) := by
  constructor
  · intro allBookings users identity now c hc
    obtain ⟨b0, _, heq⟩ := loadCore_mem allBookings users identity now c hc
    rw [heq]
    exact mkConversation_invariant _ users identity now b0
  · intro s r h
    unfold handleSendMessage at h
    split at h
    · injection h with h2
      rw [← h2]
    · injection h with h2
      rw [← h2]

/-- Witness for C8: the invariant at the concretely derived conversation
`cW`, and preservation across the concrete successful send from `stSend`. -/
theorem last_message_reflects_sequence_witness :
    lastMessageInvariant cW
    ∧ PageState.conversations { stSend with messageText := "" } = stSend.conversations := by
  constructor
  · exact last_message_reflects_sequence.1 [bkA, bkB] [] identW nowW cW (by decide)
  · exact last_message_reflects_sequence.2 stSend { stSend with messageText := "" } (by decide)

/-- C9: for a patient with two or more qualifying bookings, the emitted
Conversation takes its patient display name, patient email and the seed
messages' patient sender name from the first qualifying booking in
collection order, while `lastMessage`, `unreadCount` and `status` are
computed from the latest booking by reference time; when the two bookings
carry different patient names, the conversation shows the first one's. -/
theorem conversation_identity_from_first_booking (allBookings : List Booking)
    (users : List UserRec) (identity : Identity) (now : Int) (c : Conversation) (b0 : Booking)
    (hc : c ∈ loadConversationsCore allBookings users identity now)
    (hfirst : (allBookings.filter (matchesTherapist identity)).find?
        (fun b => b.patientId == c.id) = some b0)
    (htwo : 2 ≤ ((allBookings.filter (matchesTherapist identity)).filter
        (fun b => b.patientId == c.id)).length) :
    c.patientName = b0.patientName
    ∧ c.patientEmail = resolveEmail b0 users
    ∧ c.messages.map (fun m => m.senderName)
        = [b0.patientName, if identity.name.isEmpty then "Therapist" else identity.name,
           b0.patientName]
    ∧ ∃ lb, latestBooking ((allBookings.filter (matchesTherapist identity)).filter
          (fun b => b.patientId == c.id)) = some lb
        ∧ c.lastMessage = lastMessageFor lb.status
        ∧ c.unreadCount = unreadFor lb.status
        ∧ c.status = presence (refTime lb) now := by
  obtain ⟨b1, hfind, heq⟩ := loadCore_mem allBookings users identity now c hc
  rw [hfirst] at hfind
  injection hfind with hb
  rw [← hb] at heq
  have hid : b0.patientId = c.id := by
    have h := List.find?_some hfirst
    exact beq_iff_eq.mp h
  have hb0m : b0 ∈ allBookings.filter (matchesTherapist identity) :=
    List.mem_of_find?_eq_some hfirst
  have hb0g : b0 ∈ (allBookings.filter (matchesTherapist identity)).filter
      (fun b => b.patientId == c.id) :=
    List.mem_filter.mpr ⟨hb0m, by rw [hid]; exact beq_self_eq_true _⟩
  have hpred : (fun b : Booking => b.patientId == c.id)
      = (fun b2 : Booking => b2.patientId == b0.patientId) := by
    funext b2
    rw [hid]
  obtain ⟨lb, hlb⟩ : ∃ lb, latestBooking ((allBookings.filter (matchesTherapist identity)).filter
      (fun b => b.patientId == c.id)) = some lb := by
    cases hg : (allBookings.filter (matchesTherapist identity)).filter
        (fun b => b.patientId == c.id) with
    | nil => rw [hg] at hb0g; cases hb0g
    | cons hd tl => exact ⟨List.foldl pickLater hd tl, rfl⟩
  have hlb' : latestBooking ((allBookings.filter (matchesTherapist identity)).filter
      (fun b2 => b2.patientId == b0.patientId)) = some lb := by
    rw [← hpred]
    exact hlb
  obtain ⟨hlm, huc, hst, hname, hmail, hmsgs, _⟩ :=
    mkConversation_fields (allBookings.filter (matchesTherapist identity))
      users identity now b0 lb hlb'
  refine ⟨by rw [heq]; exact hname, by rw [heq]; exact hmail, ?_,
    lb, hlb, by rw [heq]; exact hlm, by rw [heq]; exact huc, by rw [heq]; exact hst⟩
  rw [heq, hmsgs]
  rfl

/-- Witness for C9 in the two-booking scenario: bookings `bkA` (first,
patient name Alice) and `bkB` (later, patient name Alicia, completed);
the conversation shows the first booking's name but the latest booking's
canned message. -/
theorem conversation_identity_from_first_booking_witness :
    cW.patientName = "Alice"
    ∧ cW.lastMessage = "Thank you for the session today. I feel much better." := by
  obtain ⟨hname, _, _, lb, hlb, hlm, _, _⟩ :=
    conversation_identity_from_first_booking [bkA, bkB] [] identW nowW cW bkA
      (by decide) (by decide) (by decide)
  have hlbB : latestBooking (([bkA, bkB].filter (matchesTherapist identW)).filter
      (fun b => b.patientId == cW.id)) = some bkB := by decide
  rw [hlbB] at hlb
  injection hlb with hE
  refine ⟨by rw [hname]; rfl, ?_⟩
  rw [hlm, ← hE]
  rfl
